import Mathlib

/-!
Verification of the user-group management views of `zerver/views/user_groups.py`
(group graph model, permission-setting values, and the mutation endpoints).

The views in the source file are embedded directly.  Library and action-layer
functions that the views call (`zerver.lib.user_groups`, `zerver.actions.user_groups`,
`zerver.views.streams.compose_views`) are not part of the excerpt; where a claim
depends on them they are modelled from the specification, and each such
definition carries a doc comment saying so.
-/

namespace UserGroups

/-- Error taxonomy of the user-group views.  Every error raised by the views is a
`JsonableError` distinguished by its message; the constructors below carry the
data interpolated into the message instead of the message text.  In the spec's
taxonomy: `alreadyMember`, `noSuchMember`, `alreadySubgroup`, `notASubgroup`
are ConflictError; `cycle` is CycleError (message "User group X is already a
subgroup of one of the passed subgroups."); `validationNoNewData` is the
ValidationError "No new data supplied"; `validationNothingToDo` is the
ValidationError raised when both the add and delete lists are empty;
`validationDuplicate` is the ValidationError for a duplicate group at creation;
`notFound` is NotFoundError (a group id that does not resolve in the realm). -/
inductive GroupError where
  | notFound
  | validationNoNewData
  | validationNothingToDo
  | validationDuplicate
  | alreadyMember (userId : Nat)
  | noSuchMember (userId : Nat)
  | alreadySubgroup (groupId : Nat)
  | notASubgroup (groupId : Nat)
  | cycle (groupId : Nat)
deriving DecidableEq

/-- `AnonymousSettingGroupDict` from `zerver.lib.user_groups`: an inline
anonymous setting spec with direct member ids and direct subgroup ids. -/
structure AnonymousSettingGroupDict where
  direct_members : List Nat
  direct_subgroups : List Nat
deriving DecidableEq

/-- A parsed permission-setting value: `Union[int, AnonymousSettingGroupDict]`
in the source.  `groupId` is the plain `int` case. -/
inductive SettingValue where
  | groupId (id : Nat)
  | anonymous (d : AnonymousSettingGroupDict)
deriving DecidableEq

/-- A raw (wire-format) setting value: `Union[int, Dict[str, List[int]]]`,
where the dict has keys `direct_members` and `direct_subgroups`. -/
inductive RawSettingValue where
  | int (value : Nat)
  | dict (direct_members : List Nat) (direct_subgroups : List Nat)
deriving DecidableEq

/-- `parse_group_setting_value` (source lines 48-60): an `int` passes through;
a dict with no direct members and exactly one direct subgroup collapses to that
subgroup's id; otherwise an `AnonymousSettingGroupDict` is built. -/
def parse_group_setting_value : RawSettingValue → SettingValue
  | .int v => .groupId v
  | .dict ms sgs =>
      if ms.length = 0 ∧ sgs.length = 1 then
        .groupId (sgs.headD 0)
      else
        .anonymous ⟨ms, sgs⟩

/-- `are_both_setting_values_equal` (source lines 125-141): two ints are equal
as ints; two anonymous dicts are equal when their member-id sets and their
subgroup-id sets agree (Python compares `set(...)` on both sides); a mixed
pair is never equal. -/
def are_both_setting_values_equal : SettingValue → SettingValue → Bool
  | .groupId a, .groupId b => decide (a = b)
  | .anonymous a, .anonymous b =>
      decide (a.direct_members.toFinset = b.direct_members.toFinset ∧
        a.direct_subgroups.toFinset = b.direct_subgroups.toFinset)
  | .groupId _, .anonymous _ => false
  | .anonymous _, .groupId _ => false

/-- `check_setting_value_changed` (source lines 144-150).  The source converts
the stored setting group to its API value with `get_group_setting_value_for_api`
(from `zerver.lib.user_groups`, not in the excerpt); here the stored current
value is already kept in API form, so that conversion is the identity. -/
def check_setting_value_changed (current_value new_setting_value : SettingValue) : Bool :=
  !(are_both_setting_values_equal current_value new_setting_value)

/-- A named user group as seen by `edit_user_group`: id, name, description and
the `can_mention_group` permission setting, the latter kept in API form. -/
structure NamedGroup where
  id : Nat
  name : String
  description : String
  can_mention_group : SettingValue
deriving DecidableEq

/-- Result of `edit_user_group`: the updated group, together with the number of
anonymous groups materialized by the setting resolver during the edit. -/
structure EditResult where
  group : NamedGroup
  anonymousGroupsCreated : Nat
deriving DecidableEq

/-- The name and description phase of `edit_user_group` (source lines 171-176):
each field is updated when supplied and different from the stored value.
`check_user_group_name` and the name-uniqueness check are external
collaborators and modelled as accepting. -/
def edit_name_description (g : NamedGroup) (name description : Option String) : NamedGroup :=
  let g1 := match name with
    | none => g
    | some n => if n ≠ g.name then { g with name := n } else g
  match description with
  | none => g1
  | some d => if d ≠ g1.description then { g1 with description := d } else g1

/-- `edit_user_group` (source lines 156-200).  Raises "No new data supplied"
when name, description and `can_mention_group` are all omitted; updates name
and description when supplied and different; for the setting, parses the raw
value and, only when `check_setting_value_changed` reports a change, resolves
it — `access_user_group_for_setting` (from `zerver.lib.user_groups`, not in the
excerpt) is modelled from the spec: a plain group id resolves to itself, an
anonymous spec materializes one new anonymous group. -/
def edit_user_group (g : NamedGroup) (name : Option String) (description : Option String)
    (can_mention_group : Option RawSettingValue) : Except GroupError EditResult :=
  if name = none ∧ description = none ∧ can_mention_group = none then
    .error .validationNoNewData
  else
    let g2 := edit_name_description g name description
    match can_mention_group with
    | none => .ok ⟨g2, 0⟩
    | some raw =>
        let new_setting_value := parse_group_setting_value raw
        if check_setting_value_changed g2.can_mention_group new_setting_value then
          match new_setting_value with
          | .groupId gid => .ok ⟨{ g2 with can_mention_group := .groupId gid }, 0⟩
          | .anonymous d => .ok ⟨{ g2 with can_mention_group := .anonymous d }, 1⟩
        else
          .ok ⟨g2, 0⟩

/-- The group-graph store (spec section "GroupGraphStore"): the ids of the
named groups of the realm, the direct membership edges `(group id, user id)`,
and the direct subgroup edges `(supergroup id, subgroup id)`.  Anonymous
groups, which the spec excludes from the acyclicity invariant, are not part of
this store. -/
structure Store where
  groups : List Nat
  memberEdges : List (Nat × Nat)
  subgroupEdges : List (Nat × Nat)
deriving DecidableEq

/-- One step of the subgroup relation: `(a, b)` is a direct subgroup edge. -/
def Edge (edges : List (Nat × Nat)) (a b : Nat) : Prop :=
  (a, b) ∈ edges

/-- `b` is in the reflexive-transitive subgroup closure of `a`: `a` reaches `b`
through zero or more direct subgroup edges. -/
def Reaches (edges : List (Nat × Nat)) (a b : Nat) : Prop :=
  Relation.ReflTransGen (Edge edges) a b

/-- One round of closure computation: add every direct subgroup of a group
already in the set. -/
def stepClose (edges : List (Nat × Nat)) (s : Finset Nat) : Finset Nat :=
  s ∪ (edges.filterMap (fun e => if e.1 ∈ s then some e.2 else none)).toFinset

/-- `n` rounds of closure computation. -/
def closeN (edges : List (Nat × Nat)) : Nat → Finset Nat → Finset Nat
  | 0, s => s
  | n + 1, s => closeN edges n (stepClose edges s)

/-- The recursive-subgroup closure of a set of root group ids (the roots
themselves included), as computed by `get_recursive_subgroups_union_for_groups`
inside `lock_subgroups_with_respect_to_supergroup` (from
`zerver.lib.user_groups`, not in the excerpt).  Modelled from the spec: the
lock context's `recursive_subgroups` is the candidate subgroups' recursive
closure.  `edges.length` rounds always suffice to reach the fixpoint. -/
def recursiveClosure (edges : List (Nat × Nat)) (roots : List Nat) : Finset Nat :=
  closeN edges edges.length roots.toFinset

/-- The set of edge targets: every node that can be newly added by a closure
round is the target of some edge. -/
def edgeTargets (edges : List (Nat × Nat)) : Finset Nat :=
  (edges.map Prod.snd).toFinset

/-- The direct subgroup ids of a group, as `supergroup.direct_subgroups` in the
source. -/
def directSubgroupIds (st : Store) (gid : Nat) : List Nat :=
  (st.subgroupEdges.filter (fun e => e.1 = gid)).map Prod.snd

/-- `add_members_to_group_backend` (source lines 292-321): empty member list
short-circuits to success before any lookup; the group must resolve
(`access_user_group_by_id`); if any listed user is already a direct member the
first such user is reported as a conflict; otherwise all membership edges are
added.  User-existence lookup (`user_ids_to_users`) is an external collaborator
per the spec and is modelled as succeeding. -/
def add_members_to_group_backend (st : Store) (user_group_id : Nat) (members : List Nat) :
    Except GroupError Store :=
  if members = [] then .ok st
  else if user_group_id ∈ st.groups then
    match members.find? (fun u => decide ((user_group_id, u) ∈ st.memberEdges)) with
    | some u => .error (.alreadyMember u)
    | none =>
        .ok { st with memberEdges :=
          st.memberEdges ++ members.map (fun u => (user_group_id, u)) }
  else .error .notFound

/-- `remove_members_from_group_backend` (source lines 324-348): empty list
short-circuits; the group must resolve; if any listed user is not a direct
member the first such user is reported; otherwise all matching membership
edges are removed (`bulk_remove_members_from_user_groups`). -/
def remove_members_from_group_backend (st : Store) (user_group_id : Nat) (members : List Nat) :
    Except GroupError Store :=
  if members = [] then .ok st
  else if user_group_id ∈ st.groups then
    match members.find? (fun u => decide ((user_group_id, u) ∉ st.memberEdges)) with
    | some u => .error (.noSuchMember u)
    | none =>
        .ok { st with memberEdges :=
          st.memberEdges.filter (fun e => ¬(e.1 = user_group_id ∧ e.2 ∈ members)) }
  else .error .notFound

/-- `add_subgroups_to_group_backend` (source lines 351-384): empty list
short-circuits before taking the lock; the lock context
(`lock_subgroups_with_respect_to_supergroup`, modelled from the spec) resolves
the supergroup and every candidate, failing with NotFoundError otherwise, and
computes the candidates' recursive-subgroup closure; a candidate that is
already a direct subgroup is a conflict; if the supergroup id occurs in the
candidates' closure the cycle error is raised; otherwise the edges are
committed (`add_subgroups_to_user_group`). -/
def add_subgroups_to_group_backend (st : Store) (user_group_id : Nat)
    (subgroup_ids : List Nat) : Except GroupError Store :=
  if subgroup_ids = [] then .ok st
  else if user_group_id ∈ st.groups ∧ ∀ s ∈ subgroup_ids, s ∈ st.groups then
    match subgroup_ids.find? (fun s => decide (s ∈ directSubgroupIds st user_group_id)) with
    | some s => .error (.alreadySubgroup s)
    | none =>
        if user_group_id ∈ recursiveClosure st.subgroupEdges subgroup_ids then
          .error (.cycle user_group_id)
        else
          .ok { st with subgroupEdges :=
            st.subgroupEdges ++ subgroup_ids.map (fun s => (user_group_id, s)) }
  else .error .notFound

/-- `remove_subgroups_from_group_backend` (source lines 387-414): empty list
short-circuits before taking the lock; resolution as for addition; a candidate
that is not currently a direct subgroup is a conflict; otherwise the matching
subgroup edges are removed (`remove_subgroups_from_user_group`). -/
def remove_subgroups_from_group_backend (st : Store) (user_group_id : Nat)
    (subgroup_ids : List Nat) : Except GroupError Store :=
  if subgroup_ids = [] then .ok st
  else if user_group_id ∈ st.groups ∧ ∀ s ∈ subgroup_ids, s ∈ st.groups then
    match subgroup_ids.find? (fun s => decide (s ∉ directSubgroupIds st user_group_id)) with
    | some s => .error (.notASubgroup s)
    | none =>
        .ok { st with subgroupEdges :=
          st.subgroupEdges.filter (fun e => ¬(e.1 = user_group_id ∧ e.2 ∈ subgroup_ids)) }
  else .error .notFound

/-- `check_add_user_group` as called by `add_user_group` (source lines 78-115).
Modelled from the spec: `check_add_user_group` lives in
`zerver.actions.user_groups`, not in the excerpt; it creates a named group with
the given members, failing with ValidationError on a duplicate — the
name-uniqueness check is abstracted to freshness of the new group id.  No
subgroup edge is created at group creation. -/
def check_add_user_group (st : Store) (new_group_id : Nat) (member_ids : List Nat) :
    Except GroupError Store :=
  if new_group_id ∈ st.groups then .error .validationDuplicate
  else
    .ok { st with groups := st.groups ++ [new_group_id],
                  memberEdges := st.memberEdges ++ member_ids.map (fun u => (new_group_id, u)) }

/-- `delete_user_group` (source lines 205-215): the group is locked as its own
supergroup and deleted.  `check_delete_user_group` (from
`zerver.actions.user_groups`, not in the excerpt) is modelled from the spec:
deletability validation is delegated to an external collaborator, and deletion
removes the group and detaches its membership and subgroup edges. -/
def delete_user_group (st : Store) (user_group_id : Nat) : Except GroupError Store :=
  if user_group_id ∈ st.groups then
    .ok { groups := st.groups.filter (fun g => g ≠ user_group_id),
          memberEdges := st.memberEdges.filter (fun e => e.1 ≠ user_group_id),
          subgroupEdges := st.subgroupEdges.filter
            (fun e => ¬(e.1 = user_group_id ∨ e.2 = user_group_id)) }
  else .error .notFound

/-- `compose_views` (from `zerver.views.streams`, not in the excerpt), as used
by `update_user_group_backend` (source lines 220-240).  Modelled from the spec:
the thunks run in order inside one transaction, aborting on the first error —
so the member additions are applied before the member removals. -/
def update_user_group_backend (st : Store) (user_group_id : Nat)
    (delete add : List Nat) : Except GroupError Store :=
  if add = [] ∧ delete = [] then .error .validationNothingToDo
  else
    match add_members_to_group_backend st user_group_id add with
    | .error e => .error e
    | .ok st1 => remove_members_from_group_backend st1 user_group_id delete

/-- `update_subgroups_of_user_group` (source lines 419-439): same composition
for subgroups — additions applied before removals via `compose_views`
(modelled from the spec as ordered sequencing, aborting on the first error). -/
def update_subgroups_of_user_group (st : Store) (user_group_id : Nat)
    (delete add : List Nat) : Except GroupError Store :=
  if add = [] ∧ delete = [] then .error .validationNothingToDo
  else
    match add_subgroups_to_group_backend st user_group_id add with
    | .error e => .error e
    | .ok st1 => remove_subgroups_from_group_backend st1 user_group_id delete

/-- The successful-mutation operations of the group service named by the
acyclicity invariant: create, add/remove members, add/remove subgroups,
delete. -/
inductive Mutation where
  | create (new_group_id : Nat) (member_ids : List Nat)
  | addMembers (gid : Nat) (ids : List Nat)
  | removeMembers (gid : Nat) (ids : List Nat)
  | addSubgroups (gid : Nat) (ids : List Nat)
  | removeSubgroups (gid : Nat) (ids : List Nat)
  | deleteGroup (gid : Nat)
deriving DecidableEq

/-- Dispatch of a mutation operation to the corresponding view backend. -/
def applyMutation (st : Store) : Mutation → Except GroupError Store
  | .create gid ms => check_add_user_group st gid ms
  | .addMembers gid ids => add_members_to_group_backend st gid ids
  | .removeMembers gid ids => remove_members_from_group_backend st gid ids
  | .addSubgroups gid ids => add_subgroups_to_group_backend st gid ids
  | .removeSubgroups gid ids => remove_subgroups_from_group_backend st gid ids
  | .deleteGroup gid => delete_user_group st gid

/-- Acyclicity of the direct-subgroup relation: no group reaches itself through
a nonempty chain of subgroup edges, i.e. no group is its own recursive
subgroup, directly or transitively. -/
def Acyclic (edges : List (Nat × Nat)) : Prop :=
  ∀ a b, (a, b) ∈ edges → ¬ Reaches edges b a

end UserGroups

namespace UserGroups

theorem mem_stepClose (edges : List (Nat × Nat)) (s : Finset Nat) (y : Nat) :
    y ∈ stepClose edges s ↔ y ∈ s ∨ ∃ x ∈ s, (x, y) ∈ edges := by
  constructor
  · intro h
    rcases Finset.mem_union.1 h with h | h
    · exact Or.inl h
    · rcases List.mem_filterMap.1 (List.mem_toFinset.1 h) with ⟨⟨a, b⟩, he, hfe⟩
      by_cases ha : a ∈ s
      · rw [if_pos ha, Option.some.injEq] at hfe
        subst hfe
        exact Or.inr ⟨a, ha, he⟩
      · rw [if_neg ha] at hfe
        exact absurd hfe (by simp)
  · rintro (h | ⟨x, hx, hxy⟩)
    · exact Finset.mem_union_left _ h
    · refine Finset.mem_union_right _
        (List.mem_toFinset.2 (List.mem_filterMap.2 ⟨(x, y), hxy, ?_⟩))
      rw [if_pos hx]

theorem subset_stepClose (edges : List (Nat × Nat)) (s : Finset Nat) :
    s ⊆ stepClose edges s := by
  intro y hy
  exact (mem_stepClose edges s y).2 (Or.inl hy)

theorem subset_closeN (edges : List (Nat × Nat)) (n : Nat) (s : Finset Nat) :
    s ⊆ closeN edges n s := by
  induction n generalizing s with
  | zero => exact subset_refl s
  | succ n ih =>
      simp only [closeN]
      exact (subset_stepClose edges s).trans (ih (stepClose edges s))

theorem closeN_sound (edges : List (Nat × Nat)) (n : Nat) (s : Finset Nat) (y : Nat)
    (hy : y ∈ closeN edges n s) : ∃ x ∈ s, Reaches edges x y := by
  induction n generalizing s with
  | zero => exact ⟨y, hy, Relation.ReflTransGen.refl⟩
  | succ n ih =>
      simp only [closeN] at hy
      rcases ih _ hy with ⟨x, hx, hxy⟩
      rcases (mem_stepClose edges s x).1 hx with h1 | ⟨a, ha, hax⟩
      · exact ⟨x, h1, hxy⟩
      · exact ⟨a, ha, Relation.ReflTransGen.head hax hxy⟩

theorem closed_of_stepClose_subset {edges : List (Nat × Nat)} {s : Finset Nat}
    (hc : stepClose edges s ⊆ s) {x y : Nat} (hx : x ∈ s)
    (hxy : Reaches edges x y) : y ∈ s := by
  induction hxy with
  | refl => exact hx
  | tail _ he ih => exact hc ((mem_stepClose edges s _).2 (Or.inr ⟨_, ih, he⟩))

theorem stepClose_subset_union_targets (edges : List (Nat × Nat)) (s : Finset Nat) :
    stepClose edges s ⊆ s ∪ edgeTargets edges := by
  intro y hy
  rcases (mem_stepClose edges s y).1 hy with h | ⟨x, _, hxy⟩
  · exact Finset.mem_union_left _ h
  · exact Finset.mem_union_right _
      (List.mem_toFinset.2 (List.mem_map.2 ⟨(x, y), hxy, rfl⟩))

theorem closeN_complete_aux (edges : List (Nat × Nat)) :
    ∀ (n : Nat) (s : Finset Nat), (edgeTargets edges \ s).card ≤ n →
      ∀ x ∈ s, ∀ y, Reaches edges x y → y ∈ closeN edges n s := by
  intro n
  induction n with
  | zero =>
      intro s hcard x hx y hxy
      have hts : edgeTargets edges ⊆ s := by
        intro t ht
        by_contra hns
        have hmem : t ∈ edgeTargets edges \ s := Finset.mem_sdiff.2 ⟨ht, hns⟩
        have hpos : 0 < (edgeTargets edges \ s).card := Finset.card_pos.2 ⟨t, hmem⟩
        omega
      have hc : stepClose edges s ⊆ s := by
        intro z hz
        rcases Finset.mem_union.1 (stepClose_subset_union_targets edges s hz) with h | h
        · exact h
        · exact hts h
      exact closed_of_stepClose_subset hc hx hxy
  | succ n ih =>
      intro s hcard x hx y hxy
      by_cases hfix : stepClose edges s ⊆ s
      · exact subset_closeN edges (n + 1) s (closed_of_stepClose_subset hfix hx hxy)
      · obtain ⟨z, hz, hzs⟩ := Finset.not_subset.1 hfix
        have hz_targets : z ∈ edgeTargets edges := by
          rcases Finset.mem_union.1 (stepClose_subset_union_targets edges s hz) with h | h
          · exact absurd h hzs
          · exact h
        have hmono : edgeTargets edges \ stepClose edges s ⊆ edgeTargets edges \ s :=
          Finset.sdiff_subset_sdiff (subset_refl _) (subset_stepClose edges s)
        have hssub : edgeTargets edges \ stepClose edges s ⊂ edgeTargets edges \ s :=
          (Finset.ssubset_iff_of_subset hmono).2
            ⟨z, Finset.mem_sdiff.2 ⟨hz_targets, hzs⟩,
             fun hmem => (Finset.mem_sdiff.1 hmem).2 hz⟩
        have hlt := Finset.card_lt_card hssub
        have hcard2 : (edgeTargets edges \ stepClose edges s).card ≤ n := by omega
        simp only [closeN]
        exact ih (stepClose edges s) hcard2 x (subset_stepClose edges s hx) y hxy

theorem mem_recursiveClosure_iff (edges : List (Nat × Nat)) (roots : List Nat) (y : Nat) :
    y ∈ recursiveClosure edges roots ↔ ∃ x ∈ roots, Reaches edges x y := by
  constructor
  · intro hy
    rcases closeN_sound edges edges.length roots.toFinset y hy with ⟨x, hx, hxy⟩
    exact ⟨x, List.mem_toFinset.1 hx, hxy⟩
  · rintro ⟨x, hx, hxy⟩
    have hcard : (edgeTargets edges \ roots.toFinset).card ≤ edges.length := by
      have h1 : (edgeTargets edges \ roots.toFinset).card ≤ (edgeTargets edges).card :=
        Finset.card_le_card (Finset.sdiff_subset)
      have h2 : (edgeTargets edges).card ≤ (edges.map Prod.snd).length :=
        List.toFinset_card_le _
      have h3 : (edges.map Prod.snd).length = edges.length := by simp
      omega
    exact closeN_complete_aux edges edges.length roots.toFinset hcard x
      (List.mem_toFinset.2 hx) y hxy

theorem reaches_mono {E F : List (Nat × Nat)} (hEF : ∀ e ∈ E, e ∈ F) {a b : Nat}
    (h : Reaches E a b) : Reaches F a b :=
  Relation.ReflTransGen.mono (fun x y hxy => hEF (x, y) hxy) h

theorem acyclic_mono {E F : List (Nat × Nat)} (hEF : ∀ e ∈ E, e ∈ F)
    (h : Acyclic F) : Acyclic E := by
  intro a b hab hr
  exact h a b (hEF _ hab) (reaches_mono hEF hr)

theorem reaches_append_cases (E : List (Nat × Nat)) (P : Nat) (ids : List Nat)
    {x y : Nat} (h : Reaches (E ++ ids.map (fun s => (P, s))) x y) :
    Reaches E x y ∨
      (Reaches E x P ∧ ∃ s ∈ ids, Reaches (E ++ ids.map (fun s => (P, s))) s y) := by
  induction h using Relation.ReflTransGen.head_induction_on with
  | refl => exact Or.inl Relation.ReflTransGen.refl
  | head hac hcy ih =>
      rename_i a c
      have hac2 : (a, c) ∈ E ++ ids.map (fun s => (P, s)) := hac
      rcases List.mem_append.1 hac2 with hE | hnew
      · rcases ih with h1 | ⟨h1, s, hs, hsy⟩
        · exact Or.inl (Relation.ReflTransGen.head hE h1)
        · exact Or.inr ⟨Relation.ReflTransGen.head hE h1, s, hs, hsy⟩
      · rcases List.mem_map.1 hnew with ⟨s, hs, heq⟩
        cases heq
        exact Or.inr ⟨Relation.ReflTransGen.refl, c, hs, hcy⟩

theorem acyclic_append_new_edges (E : List (Nat × Nat)) (P : Nat) (ids : List Nat)
    (hno : ∀ s ∈ ids, ¬ Reaches E s P) (hacyc : Acyclic E) :
    Acyclic (E ++ ids.map (fun s => (P, s))) := by
  have hEsub : ∀ e ∈ E, e ∈ E ++ ids.map (fun s => (P, s)) :=
    fun e he => List.mem_append.2 (Or.inl he)
  intro a b hab hr
  rcases List.mem_append.1 hab with hE | hnew
  · rcases reaches_append_cases E P ids hr with h1 | ⟨h1, s, hs, hsa⟩
    · exact hacyc a b hE h1
    · have hsb : Reaches (E ++ ids.map (fun s => (P, s))) s b :=
        Relation.ReflTransGen.tail hsa hab
      have hbP : Reaches (E ++ ids.map (fun s => (P, s))) b P :=
        reaches_mono hEsub h1
      have hsP := hsb.trans hbP
      rcases reaches_append_cases E P ids hsP with h2 | ⟨h2, _⟩
      · exact hno s hs h2
      · exact hno s hs h2
  · rcases List.mem_map.1 hnew with ⟨s, hs, heq⟩
    have hPa : P = a := congrArg Prod.fst heq
    have hsb : s = b := congrArg Prod.snd heq
    subst hPa
    subst hsb
    rcases reaches_append_cases E P ids hr with h2 | ⟨h2, _⟩
    · exact hno s hs h2
    · exact hno s hs h2

theorem mem_directSubgroupIds (st : Store) (P s : Nat) :
    s ∈ directSubgroupIds st P ↔ (P, s) ∈ st.subgroupEdges := by
  unfold directSubgroupIds
  constructor
  · intro h
    rcases List.mem_map.1 h with ⟨e, he, hsnd⟩
    have hmem := (List.mem_filter.1 he).1
    have hfst : e.1 = P := by simpa using (List.mem_filter.1 he).2
    have heq : e = (P, s) := Prod.ext hfst hsnd
    rwa [heq] at hmem
  · intro h
    exact List.mem_map.2 ⟨(P, s), List.mem_filter.2 ⟨h, by simp⟩, rfl⟩

theorem add_members_commits (st : Store) (gid : Nat) (ids : List Nat)
    (hne : ids ≠ []) (hg : gid ∈ st.groups)
    (hnm : ∀ u ∈ ids, (gid, u) ∉ st.memberEdges) :
    add_members_to_group_backend st gid ids =
      .ok { st with memberEdges := st.memberEdges ++ ids.map (fun u => (gid, u)) } := by
  unfold add_members_to_group_backend
  rw [if_neg hne, if_pos hg]
  have hfind : ids.find? (fun u => decide ((gid, u) ∈ st.memberEdges)) = none := by
    rw [List.find?_eq_none]
    intro u hu
    simpa using hnm u hu
  rw [hfind]

theorem remove_members_removes (st : Store) (gid : Nat) (ids : List Nat)
    (hne : ids ≠ []) (hg : gid ∈ st.groups)
    (hm : ∀ u ∈ ids, (gid, u) ∈ st.memberEdges) :
    remove_members_from_group_backend st gid ids =
      .ok { st with memberEdges :=
        st.memberEdges.filter (fun e => ¬(e.1 = gid ∧ e.2 ∈ ids)) } := by
  unfold remove_members_from_group_backend
  rw [if_neg hne, if_pos hg]
  have hfind : ids.find? (fun u => decide ((gid, u) ∉ st.memberEdges)) = none := by
    rw [List.find?_eq_none]
    intro u hu
    simpa using hm u hu
  rw [hfind]

theorem add_subgroups_commits (st : Store) (P : Nat) (ids : List Nat)
    (hne : ids ≠ []) (hP : P ∈ st.groups) (hacc : ∀ s ∈ ids, s ∈ st.groups)
    (hnd : ∀ s ∈ ids, (P, s) ∉ st.subgroupEdges)
    (hnc : P ∉ recursiveClosure st.subgroupEdges ids) :
    add_subgroups_to_group_backend st P ids =
      .ok { st with subgroupEdges := st.subgroupEdges ++ ids.map (fun s => (P, s)) } := by
  unfold add_subgroups_to_group_backend
  rw [if_neg hne, if_pos ⟨hP, hacc⟩]
  have hfind : ids.find? (fun s => decide (s ∈ directSubgroupIds st P)) = none := by
    rw [List.find?_eq_none]
    intro s hs
    simp only [decide_eq_true_eq]
    rw [mem_directSubgroupIds]
    exact hnd s hs
  rw [hfind]
  simp only [if_neg hnc]

theorem add_subgroups_cycle (st : Store) (P : Nat) (ids : List Nat)
    (hne : ids ≠ []) (hP : P ∈ st.groups) (hacc : ∀ s ∈ ids, s ∈ st.groups)
    (hnd : ∀ s ∈ ids, (P, s) ∉ st.subgroupEdges)
    (hc : P ∈ recursiveClosure st.subgroupEdges ids) :
    add_subgroups_to_group_backend st P ids = .error (.cycle P) := by
  unfold add_subgroups_to_group_backend
  rw [if_neg hne, if_pos ⟨hP, hacc⟩]
  have hfind : ids.find? (fun s => decide (s ∈ directSubgroupIds st P)) = none := by
    rw [List.find?_eq_none]
    intro s hs
    simp only [decide_eq_true_eq]
    rw [mem_directSubgroupIds]
    exact hnd s hs
  rw [hfind]
  simp only [if_pos hc]

theorem remove_subgroups_removes (st : Store) (P : Nat) (ids : List Nat)
    (hne : ids ≠ []) (hP : P ∈ st.groups) (hacc : ∀ s ∈ ids, s ∈ st.groups)
    (hd : ∀ s ∈ ids, (P, s) ∈ st.subgroupEdges) :
    remove_subgroups_from_group_backend st P ids =
      .ok { st with subgroupEdges :=
        st.subgroupEdges.filter (fun e => ¬(e.1 = P ∧ e.2 ∈ ids)) } := by
  unfold remove_subgroups_from_group_backend
  rw [if_neg hne, if_pos ⟨hP, hacc⟩]
  have hfind : ids.find? (fun s => decide (s ∉ directSubgroupIds st P)) = none := by
    rw [List.find?_eq_none]
    intro s hs
    simp only [decide_eq_true_eq, not_not]
    rw [mem_directSubgroupIds]
    exact hd s hs
  rw [hfind]

/-- Claim C3: a raw setting value with no direct members and exactly one direct
subgroup `g` parses to the direct group reference `g`, and never to an
anonymous spec (no anonymous group wrapper is created for it). -/
theorem parse_collapses_singleton_subgroup (g : Nat) :
    parse_group_setting_value (.dict [] [g]) = .groupId g ∧
    ∀ d : AnonymousSettingGroupDict, parse_group_setting_value (.dict [] [g]) ≠ .anonymous d := by
  constructor
  · simp [parse_group_setting_value]
  · intro d
    simp [parse_group_setting_value]

/-- Claim C4: the setting-equality check is reflexive (so
`check_setting_value_changed x x` is false) and symmetric, and two anonymous
specs are equal exactly when their member-id sets and subgroup-id sets agree as
sets, independent of element order. -/
theorem setting_equality_reflexive_symmetric_setwise :
    (∀ x : SettingValue, check_setting_value_changed x x = false) ∧
    (∀ x y : SettingValue, check_setting_value_changed x y = check_setting_value_changed y x) ∧
    (∀ a b : AnonymousSettingGroupDict,
      are_both_setting_values_equal (.anonymous a) (.anonymous b) = true ↔
        (a.direct_members.toFinset = b.direct_members.toFinset ∧
         a.direct_subgroups.toFinset = b.direct_subgroups.toFinset)) := by
  refine ⟨?_, ?_, ?_⟩
  · intro x
    cases x <;> simp [check_setting_value_changed, are_both_setting_values_equal]
  · intro x y
    cases x <;> cases y <;>
      simp [check_setting_value_changed, are_both_setting_values_equal, eq_comm, and_comm]
  · intro a b
    simp [are_both_setting_values_equal]

/-- Claim C9: a plain group id and an anonymous spec are never considered equal
by `are_both_setting_values_equal`, in either order, regardless of contents. -/
theorem setting_equality_mixed_kinds_false (n : Nat) (d : AnonymousSettingGroupDict) :
    are_both_setting_values_equal (.groupId n) (.anonymous d) = false ∧
    are_both_setting_values_equal (.anonymous d) (.groupId n) = false := by
  exact ⟨rfl, rfl⟩

/-- Claim C8: `edit_user_group` fails with the ValidationError "No new data
supplied" whenever name, description and the permission setting are all
omitted; since it fails, no updated group is produced (no change is made). -/
theorem edit_group_no_new_data_validation_error (g : NamedGroup) :
    edit_user_group g none none none = .error .validationNoNewData ∧
    ∀ r : EditResult, edit_user_group g none none none ≠ .ok r := by
  constructor
  · simp [edit_user_group]
  · intro r
    simp [edit_user_group]

/-- Claim C5: each of the four add/remove operations on members or subgroups,
called with an empty id list, succeeds and returns the store unchanged.  The
short-circuit happens before any group resolution or lock acquisition: the
result is `ok` even for a `gid` that does not resolve, which is the observable
trace of not touching the store. -/
theorem empty_id_lists_noop (st : Store) (gid : Nat) :
    add_members_to_group_backend st gid [] = .ok st ∧
    remove_members_from_group_backend st gid [] = .ok st ∧
    add_subgroups_to_group_backend st gid [] = .ok st ∧
    remove_subgroups_from_group_backend st gid [] = .ok st := by
  refine ⟨?_, ?_, ?_, ?_⟩ <;> rfl

/-- Claim C6: when at least one listed user is already a direct member of the
group, `add_members_to_group_backend` fails with the "already a member"
ConflictError naming such a user, so no id from the list is added (the
operation produces no successor store: each-or-nothing over the full list). -/
theorem add_members_conflict_each_or_nothing (st : Store) (gid : Nat) (ids : List Nat)
    (hg : gid ∈ st.groups) (hconf : ∃ u ∈ ids, (gid, u) ∈ st.memberEdges) :
    ∃ u ∈ ids, (gid, u) ∈ st.memberEdges ∧
      add_members_to_group_backend st gid ids = .error (.alreadyMember u) := by
  obtain ⟨u0, hu0, hmem0⟩ := hconf
  have hne : ids ≠ [] := by
    intro h
    rw [h] at hu0
    exact absurd hu0 (List.not_mem_nil u0)
  cases hfind : ids.find? (fun u => decide ((gid, u) ∈ st.memberEdges)) with
  | none =>
      have hall := List.find?_eq_none.1 hfind u0 hu0
      simp only [decide_eq_true_eq] at hall
      exact absurd hmem0 hall
  | some u =>
      have hp := List.find?_some hfind
      have humem := List.mem_of_find?_eq_some hfind
      simp only [decide_eq_true_eq] at hp
      refine ⟨u, humem, hp, ?_⟩
      unfold add_members_to_group_backend
      rw [if_neg hne, if_pos hg, hfind]

/-- Claim C6 witness: group 1 with direct member 5; adding `[5]` fails with the
"already a member" conflict for user 5. -/
theorem add_members_conflict_each_or_nothing_witness :
    (1 ∈ (⟨[1], [(1, 5)], []⟩ : Store).groups) ∧
    (∃ u ∈ ([5] : List Nat), ((1 : Nat), u) ∈ (⟨[1], [(1, 5)], []⟩ : Store).memberEdges) ∧
    (∃ u ∈ ([5] : List Nat), ((1 : Nat), u) ∈ (⟨[1], [(1, 5)], []⟩ : Store).memberEdges ∧
      add_members_to_group_backend ⟨[1], [(1, 5)], []⟩ 1 [5] = .error (.alreadyMember u)) :=
  ⟨by decide, by decide,
   add_members_conflict_each_or_nothing ⟨[1], [(1, 5)], []⟩ 1 [5] (by decide) (by decide)⟩

/-- Claim C1: for a supergroup `P` and a non-empty candidate list in which
every candidate resolves and none is already a direct subgroup,
`add_subgroups_to_group_backend` fails with the CycleError naming `P` exactly
when `P` lies in the union of the candidate ids and their recursive-subgroup
closure computed on the edges before the addition (`Reaches` is reflexive, so
`∃ s ∈ ids, Reaches edges s P` is precisely that union); otherwise the edges
are committed. -/
theorem add_subgroups_cycle_error_iff (st : Store) (P : Nat) (ids : List Nat)
    (hne : ids ≠ []) (hP : P ∈ st.groups) (hacc : ∀ s ∈ ids, s ∈ st.groups)
    (hnd : ∀ s ∈ ids, (P, s) ∉ st.subgroupEdges) :
    (add_subgroups_to_group_backend st P ids = .error (.cycle P) ↔
      ∃ s ∈ ids, Reaches st.subgroupEdges s P) ∧
    ((¬ ∃ s ∈ ids, Reaches st.subgroupEdges s P) →
      add_subgroups_to_group_backend st P ids =
        .ok { st with subgroupEdges := st.subgroupEdges ++ ids.map (fun s => (P, s)) }) := by
  have hiff := mem_recursiveClosure_iff st.subgroupEdges ids P
  constructor
  · constructor
    · intro herr
      by_contra hno
      have hnc : P ∉ recursiveClosure st.subgroupEdges ids := fun hc => hno (hiff.1 hc)
      rw [add_subgroups_commits st P ids hne hP hacc hnd hnc] at herr
      exact absurd herr (by simp)
    · intro hex
      exact add_subgroups_cycle st P ids hne hP hacc hnd (hiff.2 hex)
  · intro hno
    exact add_subgroups_commits st P ids hne hP hacc hnd (fun hc => hno (hiff.1 hc))

/-- Claim C1 witness: groups 1 and 2 with no edges; adding subgroup 2 to
supergroup 1 satisfies every precondition, does not raise a CycleError (2 does
not reach 1), and commits the edge `(1, 2)`. -/
theorem add_subgroups_cycle_error_iff_witness :
    (([2] : List Nat) ≠ []) ∧
    (1 ∈ (⟨[1, 2], [], []⟩ : Store).groups) ∧
    (∀ s ∈ ([2] : List Nat), s ∈ (⟨[1, 2], [], []⟩ : Store).groups) ∧
    (∀ s ∈ ([2] : List Nat), ((1 : Nat), s) ∉ (⟨[1, 2], [], []⟩ : Store).subgroupEdges) ∧
    ((add_subgroups_to_group_backend ⟨[1, 2], [], []⟩ 1 [2] = .error (.cycle 1) ↔
        ∃ s ∈ ([2] : List Nat), Reaches (⟨[1, 2], [], []⟩ : Store).subgroupEdges s 1) ∧
      ((¬ ∃ s ∈ ([2] : List Nat), Reaches (⟨[1, 2], [], []⟩ : Store).subgroupEdges s 1) →
        add_subgroups_to_group_backend ⟨[1, 2], [], []⟩ 1 [2] =
          .ok ⟨[1, 2], [], [(1, 2)]⟩)) :=
  ⟨by decide, by decide, by decide, by decide,
   add_subgroups_cycle_error_iff ⟨[1, 2], [], []⟩ 1 [2] (by decide) (by decide)
     (by decide) (by decide)⟩

/-- Claim C2: every successful mutation of the group service — create,
add/remove members, add/remove subgroups, delete — preserves acyclicity of the
recursive-subgroup relation over the named (non-anonymous) groups of the
store: if no group was its own recursive subgroup before, none is after. -/
theorem mutation_preserves_acyclicity (st st2 : Store) (m : Mutation)
    (hok : applyMutation st m = .ok st2) (hacyc : Acyclic st.subgroupEdges) :
    Acyclic st2.subgroupEdges := by
  cases m with
  | create gid ms =>
      simp only [applyMutation] at hok
      unfold check_add_user_group at hok
      split at hok
      · simp at hok
      · injection hok with h
        subst h
        exact hacyc
  | addMembers gid ids =>
      simp only [applyMutation] at hok
      unfold add_members_to_group_backend at hok
      split at hok
      · injection hok with h
        subst h
        exact hacyc
      · split at hok
        · split at hok
          · simp at hok
          · injection hok with h
            subst h
            exact hacyc
        · simp at hok
  | removeMembers gid ids =>
      simp only [applyMutation] at hok
      unfold remove_members_from_group_backend at hok
      split at hok
      · injection hok with h
        subst h
        exact hacyc
      · split at hok
        · split at hok
          · simp at hok
          · injection hok with h
            subst h
            exact hacyc
        · simp at hok
  | addSubgroups gid ids =>
      simp only [applyMutation] at hok
      unfold add_subgroups_to_group_backend at hok
      split at hok
      · injection hok with h
        subst h
        exact hacyc
      · split at hok
        · split at hok
          · simp at hok
          · split at hok
            · simp at hok
            · injection hok with h
              subst h
              rename_i hnc
              have hno : ∀ s ∈ ids, ¬ Reaches st.subgroupEdges s gid := by
                intro s hs hr
                exact hnc ((mem_recursiveClosure_iff st.subgroupEdges ids gid).2 ⟨s, hs, hr⟩)
              exact acyclic_append_new_edges st.subgroupEdges gid ids hno hacyc
        · simp at hok
  | removeSubgroups gid ids =>
      simp only [applyMutation] at hok
      unfold remove_subgroups_from_group_backend at hok
      split at hok
      · injection hok with h
        subst h
        exact hacyc
      · split at hok
        · split at hok
          · simp at hok
          · injection hok with h
            subst h
            exact acyclic_mono (fun e he => (List.mem_filter.1 he).1) hacyc
        · simp at hok
  | deleteGroup gid =>
      simp only [applyMutation] at hok
      unfold delete_user_group at hok
      split at hok
      · injection hok with h
        subst h
        exact acyclic_mono (fun e he => (List.mem_filter.1 he).1) hacyc
      · simp at hok

/-- Claim C2 witness: on the acyclic store with groups 1 and 2 and no edges,
successfully adding subgroup 2 to group 1 yields a store whose subgroup
relation is again acyclic. -/
theorem mutation_preserves_acyclicity_witness :
    applyMutation ⟨[1, 2], [], []⟩ (.addSubgroups 1 [2]) =
      .ok (⟨[1, 2], [], [(1, 2)]⟩ : Store) ∧
    Acyclic (⟨[1, 2], [], []⟩ : Store).subgroupEdges ∧
    Acyclic (⟨[1, 2], [], [(1, 2)]⟩ : Store).subgroupEdges :=
  ⟨rfl, fun a b h => absurd h (List.not_mem_nil (a, b)),
   mutation_preserves_acyclicity ⟨[1, 2], [], []⟩ ⟨[1, 2], [], [(1, 2)]⟩
     (.addSubgroups 1 [2]) rfl (fun a b h => absurd h (List.not_mem_nil (a, b)))⟩

/-- Claim C10: the combined update endpoints apply additions before removals.
Adding and deleting the same id in one request succeeds exactly because the
addition lands first — the removal then finds the id present and undoes it,
returning the original store — while running the removal alone on the original
store (what a removals-first order would do first) fails with the "not a
member"/"not a subgroup" conflict. -/
theorem update_applies_additions_before_removals (st : Store) (gid u s : Nat)
    (hg : gid ∈ st.groups) (hs : s ∈ st.groups)
    (hu : (gid, u) ∉ st.memberEdges) (hsg : (gid, s) ∉ st.subgroupEdges)
    (hcyc : gid ∉ recursiveClosure st.subgroupEdges [s]) :
    update_user_group_backend st gid [u] [u] = .ok st ∧
    remove_members_from_group_backend st gid [u] = .error (.noSuchMember u) ∧
    update_subgroups_of_user_group st gid [s] [s] = .ok st ∧
    remove_subgroups_from_group_backend st gid [s] = .error (.notASubgroup s) := by
  have hne1 : ([u] : List Nat) ≠ [] := by simp
  have hne2 : ([s] : List Nat) ≠ [] := by simp
  refine ⟨?_, ?_, ?_, ?_⟩
  · have hadd := add_members_commits st gid [u] hne1 hg
      (by intro v hv; rw [List.mem_singleton] at hv; subst hv; exact hu)
    have hrem := remove_members_removes
      { st with memberEdges := st.memberEdges ++ [u].map (fun v => (gid, v)) } gid [u]
      hne1 hg
      (by intro v hv
          rw [List.mem_singleton] at hv
          subst hv
          simp)
    unfold update_user_group_backend
    rw [if_neg (by simp), hadd]
    show remove_members_from_group_backend
      { st with memberEdges := st.memberEdges ++ [u].map (fun v => (gid, v)) } gid [u] =
      Except.ok st
    rw [hrem]
    have hfilter : (st.memberEdges ++ [u].map (fun v => (gid, v))).filter
        (fun e => ¬(e.1 = gid ∧ e.2 ∈ [u])) = st.memberEdges := by
      rw [List.filter_append]
      have h1 : st.memberEdges.filter (fun e => ¬(e.1 = gid ∧ e.2 ∈ [u])) =
          st.memberEdges := by
        rw [List.filter_eq_self]
        intro e he
        simp only [List.mem_singleton, decide_eq_true_eq]
        intro hconj
        have he2 : e = (gid, u) := Prod.ext_iff.2 hconj
        exact hu (he2 ▸ he)
      have h2 : (([u].map (fun v => (gid, v))).filter
          (fun e => ¬(e.1 = gid ∧ e.2 ∈ [u]))) = [] := by simp
      rw [h1, h2, List.append_nil]
    simp only [hfilter]
  · unfold remove_members_from_group_backend
    rw [if_neg hne1, if_pos hg,
      List.find?_cons_of_pos _ (by simpa using hu)]
  · have hadd := add_subgroups_commits st gid [s] hne2 hg
      (by intro v hv; rw [List.mem_singleton] at hv; subst hv; exact hs)
      (by intro v hv; rw [List.mem_singleton] at hv; subst hv; exact hsg)
      hcyc
    have hrem := remove_subgroups_removes
      { st with subgroupEdges := st.subgroupEdges ++ [s].map (fun v => (gid, v)) } gid [s]
      hne2 hg
      (by intro v hv; rw [List.mem_singleton] at hv; subst hv; exact hs)
      (by intro v hv
          rw [List.mem_singleton] at hv
          subst hv
          simp)
    unfold update_subgroups_of_user_group
    rw [if_neg (by simp), hadd]
    show remove_subgroups_from_group_backend
      { st with subgroupEdges := st.subgroupEdges ++ [s].map (fun v => (gid, v)) } gid [s] =
      Except.ok st
    rw [hrem]
    have hfilter : (st.subgroupEdges ++ [s].map (fun v => (gid, v))).filter
        (fun e => ¬(e.1 = gid ∧ e.2 ∈ [s])) = st.subgroupEdges := by
      rw [List.filter_append]
      have h1 : st.subgroupEdges.filter (fun e => ¬(e.1 = gid ∧ e.2 ∈ [s])) =
          st.subgroupEdges := by
        rw [List.filter_eq_self]
        intro e he
        simp only [List.mem_singleton, decide_eq_true_eq]
        intro hconj
        have he2 : e = (gid, s) := Prod.ext_iff.2 hconj
        exact hsg (he2 ▸ he)
      have h2 : (([s].map (fun v => (gid, v))).filter
          (fun e => ¬(e.1 = gid ∧ e.2 ∈ [s]))) = [] := by simp
      rw [h1, h2, List.append_nil]
    simp only [hfilter]
  · unfold remove_subgroups_from_group_backend
    rw [if_neg hne2, if_pos ⟨hg, by intro v hv; rw [List.mem_singleton] at hv; subst hv; exact hs⟩,
      List.find?_cons_of_pos _ (by simp [mem_directSubgroupIds, hsg])]

/-- Claim C10 witness: groups 1 and 2, no edges; adding and deleting user 7
(respectively subgroup 2) in a single update succeeds and returns the original
store, while the removal alone fails. -/
theorem update_applies_additions_before_removals_witness :
    (1 ∈ (⟨[1, 2], [], []⟩ : Store).groups) ∧
    (2 ∈ (⟨[1, 2], [], []⟩ : Store).groups) ∧
    (((1 : Nat), (7 : Nat)) ∉ (⟨[1, 2], [], []⟩ : Store).memberEdges) ∧
    (((1 : Nat), (2 : Nat)) ∉ (⟨[1, 2], [], []⟩ : Store).subgroupEdges) ∧
    (1 ∉ recursiveClosure (⟨[1, 2], [], []⟩ : Store).subgroupEdges [2]) ∧
    (update_user_group_backend ⟨[1, 2], [], []⟩ 1 [7] [7] = .ok ⟨[1, 2], [], []⟩ ∧
     remove_members_from_group_backend ⟨[1, 2], [], []⟩ 1 [7] = .error (.noSuchMember 7) ∧
     update_subgroups_of_user_group ⟨[1, 2], [], []⟩ 1 [2] [2] = .ok ⟨[1, 2], [], []⟩ ∧
     remove_subgroups_from_group_backend ⟨[1, 2], [], []⟩ 1 [2] = .error (.notASubgroup 2)) :=
  ⟨by decide, by decide, by decide, by decide, by decide,
   update_applies_additions_before_removals ⟨[1, 2], [], []⟩ 1 7 2 (by decide) (by decide)
     (by decide) (by decide) (by decide)⟩

theorem edit_name_description_setting_unchanged (g : NamedGroup)
    (name description : Option String) :
    (edit_name_description g name description).can_mention_group = g.can_mention_group := by
  unfold edit_name_description
  cases name <;> cases description <;> simp <;> split <;> try split
  all_goals rfl

/-- Claim C7: in `edit_user_group`, when the supplied permission-setting value
is behaviorally equal to the current one under the equality check, the edit
succeeds without resolving the value: no anonymous group is materialized and
the stored setting is unchanged — the equality check runs before resolution. -/
theorem edit_group_equal_setting_no_anonymous_group (g : NamedGroup)
    (name : Option String) (description : Option String) (raw : RawSettingValue)
    (heq : are_both_setting_values_equal g.can_mention_group
      (parse_group_setting_value raw) = true) :
    ∃ r : EditResult, edit_user_group g name description (some raw) = .ok r ∧
      r.group.can_mention_group = g.can_mention_group ∧
      r.anonymousGroupsCreated = 0 := by
  have hsame := edit_name_description_setting_unchanged g name description
  have hchanged : check_setting_value_changed
      (edit_name_description g name description).can_mention_group
      (parse_group_setting_value raw) = false := by
    simp [check_setting_value_changed, hsame, heq]
  refine ⟨⟨edit_name_description g name description, 0⟩, ?_, hsame, rfl⟩
  unfold edit_user_group
  simp [hchanged]

/-- Claim C7 witness: a group whose setting is the anonymous spec with members
1, 2 and subgroup 3; supplying the same spec with the member list reordered is
behaviorally equal, and the edit succeeds creating no anonymous group and
leaving the setting untouched. -/
theorem edit_group_equal_setting_no_anonymous_group_witness :
    (are_both_setting_values_equal
      ((⟨1, "eng", "", .anonymous ⟨[1, 2], [3]⟩⟩ : NamedGroup)).can_mention_group
      (parse_group_setting_value (.dict [2, 1] [3])) = true) ∧
    (∃ r : EditResult,
      edit_user_group ⟨1, "eng", "", .anonymous ⟨[1, 2], [3]⟩⟩ none none
        (some (.dict [2, 1] [3])) = .ok r ∧
      r.group.can_mention_group =
        ((⟨1, "eng", "", .anonymous ⟨[1, 2], [3]⟩⟩ : NamedGroup)).can_mention_group ∧
      r.anonymousGroupsCreated = 0) :=
  ⟨by decide,
   edit_group_equal_setting_no_anonymous_group ⟨1, "eng", "", .anonymous ⟨[1, 2], [3]⟩⟩
     none none (.dict [2, 1] [3]) (by decide)⟩

end UserGroups
